import Mathlib

/-!
Verification development for the gitness core write/read path.

This file gives a shallow embedding of the reference-store, reference-walker,
SHA identity value and commit-builder code (src/git/api/ref.go,
src/git/sha/sha.go and the commit-files service) and proves the spec claims
against it.  External git commands (show-ref, update-ref, the object store)
and SHA helpers missing from the excerpt are modelled from the spec, each
marked in its doc comment.
-/

set_option autoImplicit false

/-! ## String helpers (Go strings package primitives used by the source) -/

/-- Go unicode.IsSpace restricted to the Latin-1 range (strings.TrimSpace). -/
def goIsSpace (c : Char) : Bool :=
  c = ' ' || c = '\t' || c = '\n' || c = Char.ofNat 11 || c = Char.ofNat 12 ||
    c = '\r' || c = Char.ofNat 133 || c = Char.ofNat 160

/-- Go strings.TrimSpace. -/
def trimSpace (s : String) : String :=
  String.mk (((s.toList.dropWhile goIsSpace).reverse.dropWhile goIsSpace).reverse)

/-- Splitting a character list at a separator character (Go strings.Split
with a one-character separator). -/
def splitOnCharAux (sep : Char) : List Char → List Char → List (List Char)
  | [], acc => [acc.reverse]
  | c :: rest, acc =>
    if c = sep then acc.reverse :: splitOnCharAux sep rest []
    else splitOnCharAux sep rest (c :: acc)

/-- Go strings.Split(s, "/"): the slash-separated segments of a path. -/
def splitPath (s : String) : List String :=
  (splitOnCharAux '/' s.toList []).map String.mk

/-! ## Hex encoding (Go encoding/hex, as used by src/git/sha/sha.go) -/

/-- Value of one hex digit character; Go hex accepts 0-9, a-f, A-F. -/
def hexDigitVal? (c : Char) : Option Nat :=
  if '0' ≤ c ∧ c ≤ '9' then some (c.toNat - '0'.toNat)
  else if 'a' ≤ c ∧ c ≤ 'f' then some (c.toNat - 'a'.toNat + 10)
  else if 'A' ≤ c ∧ c ≤ 'F' then some (c.toNat - 'A'.toNat + 10)
  else none

/-- Decode a hex character sequence to bytes; odd length or a non-hex
character is an error (Go hex.DecodeString). -/
def hexDecodeChars : List Char → Option (List Nat)
  | [] => some []
  | [_] => none
  | hi :: lo :: rest =>
    match hexDigitVal? hi, hexDigitVal? lo, hexDecodeChars rest with
    | some h, some l, some bs => some ((16 * h + l) :: bs)
    | _, _, _ => none

/-- Go hex.DecodeString on a string. -/
def hexDecode (s : String) : Option (List Nat) :=
  hexDecodeChars s.toList

/-- Lowercase hex digit character for a value below 16. -/
def hexDigitChar (n : Nat) : Char :=
  if n < 10 then Char.ofNat ('0'.toNat + n) else Char.ofNat ('a'.toNat + (n - 10))

/-- Go hex.EncodeToString: lowercase hex of a byte list. -/
def hexEncode (bs : List Nat) : String :=
  String.mk (bs.foldr (fun b acc => hexDigitChar ((b / 16) % 16) :: hexDigitChar (b % 16) :: acc) [])

/-! ## SHA identity value (src/git/sha/sha.go) -/

/-- SHA, a git commit name: raw bytes plus a lazily-computed hex string cache
(src/git/sha/sha.go, struct SHA). -/
structure SHA where
  bytes : List Nat
  str : String
  deriving DecidableEq, Repr

/-- SHA.String from the source: the cached string if set, else the hex
encoding of the bytes. -/
def SHA.string (s : SHA) : String :=
  if s.str = "" then hexEncode s.bytes else s.str

/-- SHA.IsZero from the source: whether the byte slice is empty. -/
def SHA.IsZero (s : SHA) : Bool :=
  s.bytes.length = 0

/-- The argument of SHA.Equal: Go passes string, byte slice, or SHA
(any other dynamic type compares false and is unrepresentable here). -/
inductive EqualVal where
  | str (v : String)
  | raw (v : List Nat)
  | sha (v : SHA)
  deriving DecidableEq, Repr

/-- SHA.Equal from the source: a string compares against String(), a byte
slice and a SHA compare against the raw bytes. -/
def SHA.Equal (s : SHA) (val : EqualVal) : Bool :=
  match val with
  | .str v => v = s.string
  | .raw v => v = s.bytes
  | .sha v => v.bytes = s.bytes

/-- Construction errors of the sha package. -/
inductive ShaError where
  | decodeFailed
  | typeNotSupported
  deriving DecidableEq, Repr

/-- New (string instantiation) from the source: trims whitespace, hex-decodes,
and stores the raw bytes with an unset string cache. -/
def New (value : String) : Except ShaError SHA :=
  match hexDecode (trimSpace value) with
  | none => .error .decodeFailed
  | some b => .ok ⟨b, ""⟩

/-- New (byte-slice instantiation) from the source: stores the bytes as-is. -/
def NewBytes (value : List Nat) : Except ShaError SHA :=
  .ok ⟨value, ""⟩

/-- MustNew from the source: discards the error, yielding the zero SHA on
failure. -/
def MustNew (s : String) : SHA :=
  match New s with
  | .ok v => v
  | .error _ => ⟨[], ""⟩

/-- Modelled from the spec: the Nil sentinel (section 3) is the all-zero hash,
a valid value that has bytes, distinct from the unset/empty value.  The sha
excerpt in src only carries the hex constant; the SHA-typed constant is
missing from the excerpt. -/
def SHA.Nil : SHA :=
  ⟨List.replicate 20 0, ""⟩

/-- Modelled from the spec: the unset/empty SHA ("no object/ref exists"),
returned by failing lookups; missing from the excerpt. -/
def SHA.None : SHA :=
  ⟨[], ""⟩

/-- Modelled from the spec (section 4.1): IsEmpty, like IsZero, reports
absence of bytes; missing from the excerpt. -/
def SHA.IsEmpty (s : SHA) : Bool :=
  s.bytes.length = 0

/-- Modelled from the spec (section 4.1): IsNil compares against the Nil
constant, which has bytes, all zero; missing from the excerpt. -/
def SHA.IsNil (s : SHA) : Bool :=
  s.Equal (.sha SHA.Nil)

/-! ## Reference store and hook protocol (src/git/api/ref.go) -/

/-- The ref database of one repository: ref name to SHA, first match wins. -/
abbrev RefStore := List (String × SHA)

/-- Current value of a ref in the store. -/
def lookupRef (store : RefStore) (ref : String) : Option SHA :=
  (store.find? (fun p => p.1 = ref)).map (fun p => p.2)

/-- Store with a ref set to a value (replacing any previous binding). -/
def setRef (store : RefStore) (ref : String) (v : SHA) : RefStore :=
  (ref, v) :: store.filter (fun p => p.1 ≠ ref)

/-- Store with a ref removed. -/
def removeRef (store : RefStore) (ref : String) : RefStore :=
  store.filter (fun p => p.1 ≠ ref)

/-- hook.ReferenceUpdate: the ref-update intent sent to the hooks. -/
structure ReferenceUpdate where
  Ref : String
  Old : SHA
  New : SHA
  deriving DecidableEq, Repr

/-- hook output: messages plus an optional hook-reported error (a non-nil
Error vetoes a pre-receive). -/
structure HookOutput where
  Messages : List String
  Error : Option String
  deriving DecidableEq, Repr

/-- The githook client: pre-receive and post-receive calls, each can fail
outright (call error) or report a hook error in its output. -/
structure HookClient where
  preReceive : ReferenceUpdate → Except String HookOutput
  postReceive : ReferenceUpdate → Except String HookOutput

/-- Error kinds of the embedded operations, mirroring the typed errors of the
errors package plus the plain fmt.Errorf errors of ref.go. -/
inductive GErr where
  | invalidArgument
  | notFound
  | conflict
  | preconditionFailed
  | internal
  | invalidPath
  | oldValueEmpty
  | newValueEmpty
  | bothValuesNil
  | hookClientFailed
  | preReceiveCallFailed
  | preReceiveHookError
  | postReceiveCallFailed
  | postReceiveHookError
  deriving DecidableEq, Repr

/-- Failure modes of the git update-ref command. -/
inductive CasFailure where
  | referenceAlreadyExists
  | refLockFailed
  deriving DecidableEq, Repr

/-- processGitErrorf from src/git/api/errors.go restricted to update-ref
failures: a "reference already exists" message becomes Conflict, anything
else falls back to Internal. -/
def processGitError : CasFailure → GErr
  | .referenceAlreadyExists => .conflict
  | .refLockFailed => .internal

/-- Modelled from the spec (sections 4.3 and 6): the git update-ref CAS
primitive, the external store command invoked by updateRefWithHooks; the
command itself is outside the excerpt.  With the delete flag the ref is
removed if its current value equals oldValue; an all-zero oldValue means the
ref must not exist (create, a conflicting create reports "reference already
exists"); otherwise the ref is set to newValue only if its current value
still equals oldValue. -/
def runUpdateRefCmd (store : RefStore) (ref : String) (deleteFlag : Bool)
    (newValue oldValue : SHA) : Except CasFailure RefStore :=
  if deleteFlag then
    match lookupRef store ref with
    | some c => if c.string = oldValue.string then .ok (removeRef store ref) else .error .refLockFailed
    | none => .error .refLockFailed
  else if oldValue.IsNil then
    match lookupRef store ref with
    | some _ => .error .referenceAlreadyExists
    | none => .ok (setRef store ref newValue)
  else
    match lookupRef store ref with
    | some c => if c.string = oldValue.string then .ok (setRef store ref newValue) else .error .refLockFailed
    | none => .error .refLockFailed

/-- Observable interactions of one hook-wrapped ref update: hook calls and
invocations of the update-ref store command. -/
inductive GitEvent where
  | preReceiveCall (u : ReferenceUpdate)
  | updateRefCmd (ref : String) (old new : SHA)
  | postReceiveCall (u : ReferenceUpdate)
  deriving DecidableEq, Repr

instance instDecEqExcept {ε α : Type} [DecidableEq ε] [DecidableEq α] :
    DecidableEq (Except ε α) := fun a b =>
  match a, b with
  | .ok x, .ok y =>
    if h : x = y then .isTrue (by rw [h]) else .isFalse (by intro hc; cases hc; exact h rfl)
  | .error x, .error y =>
    if h : x = y then .isTrue (by rw [h]) else .isFalse (by intro hc; cases hc; exact h rfl)
  | .ok _, .error _ => .isFalse (by intro hc; cases hc)
  | .error _, .ok _ => .isFalse (by intro hc; cases hc)

/-- Result of UpdateRef / updateRefWithHooks: the returned error (if any),
the store after the operation, and the emitted events in order. -/
structure UpdateResult where
  result : Except GErr Unit
  store : RefStore
  events : List GitEvent
  deriving DecidableEq, Repr

/-- GetRef from the source: show-ref --verify -s on the store; a missing ref
surfaces the "not a valid ref" exit as NotFound (the command semantics are
modelled from the spec, section 6). -/
def GetRef (repoPath : String) (store : RefStore) (ref : String) : Except GErr SHA :=
  if repoPath = "" then .error .invalidArgument
  else
    match lookupRef store ref with
    | some s => .ok s
    | none => .error .notFound

/-- updateRefWithHooks from the source: validates repo path and explicit
old/new values, rejects the Nil-to-Nil no-op, creates the hook client, calls
pre-receive (a call failure or hook-reported error aborts), runs the
update-ref CAS command (delete when the new value is Nil), then calls
post-receive (a failure is reported but the mutation stays). -/
def updateRefWithHooks (repoPath : String) (factory : Except String HookClient)
    (store : RefStore) (ref : String) (oldValue newValue : SHA) : UpdateResult :=
  if repoPath = "" then ⟨.error .invalidArgument, store, []⟩
  else if oldValue.IsEmpty then ⟨.error .oldValueEmpty, store, []⟩
  else if newValue.IsEmpty then ⟨.error .newValueEmpty, store, []⟩
  else if oldValue.IsNil && newValue.IsNil then ⟨.error .bothValuesNil, store, []⟩
  else
    match factory with
    | .error _ => ⟨.error .hookClientFailed, store, []⟩
    | .ok client =>
      match client.preReceive ⟨ref, oldValue, newValue⟩ with
      | .error _ => ⟨.error .preReceiveCallFailed, store, [.preReceiveCall ⟨ref, oldValue, newValue⟩]⟩
      | .ok out =>
        match out.Error with
        | some _ => ⟨.error .preReceiveHookError, store, [.preReceiveCall ⟨ref, oldValue, newValue⟩]⟩
        | none =>
          match runUpdateRefCmd store ref newValue.IsNil newValue oldValue with
          | .error ce =>
            ⟨.error (processGitError ce), store,
              [.preReceiveCall ⟨ref, oldValue, newValue⟩, .updateRefCmd ref oldValue newValue]⟩
          | .ok store2 =>
            match client.postReceive ⟨ref, oldValue, newValue⟩ with
            | .error _ =>
              ⟨.error .postReceiveCallFailed, store2,
                [.preReceiveCall ⟨ref, oldValue, newValue⟩, .updateRefCmd ref oldValue newValue,
                  .postReceiveCall ⟨ref, oldValue, newValue⟩]⟩
            | .ok out2 =>
              match out2.Error with
              | some _ =>
                ⟨.error .postReceiveHookError, store2,
                  [.preReceiveCall ⟨ref, oldValue, newValue⟩, .updateRefCmd ref oldValue newValue,
                    .postReceiveCall ⟨ref, oldValue, newValue⟩]⟩
              | none =>
                ⟨.ok (), store2,
                  [.preReceiveCall ⟨ref, oldValue, newValue⟩, .updateRefCmd ref oldValue newValue,
                    .postReceiveCall ⟨ref, oldValue, newValue⟩]⟩

/-- UpdateRef from the source: an empty new value is normalized to Nil
(delete intent); an empty old value is resolved via GetRef, where a missing
ref fails with NotFound if the intent is deletion and otherwise normalizes to
Nil (create intent); then the call delegates to updateRefWithHooks. -/
def UpdateRef (repoPath : String) (factory : Except String HookClient)
    (store : RefStore) (ref : String) (oldValue newValue : SHA) : UpdateResult :=
  if repoPath = "" then ⟨.error .invalidArgument, store, []⟩
  else
    let newValue1 := if newValue.IsEmpty then SHA.Nil else newValue
    if oldValue.IsEmpty then
      match GetRef repoPath store ref with
      | .error e =>
        if e = GErr.notFound then
          if newValue1.IsNil then ⟨.error .notFound, store, []⟩
          else updateRefWithHooks repoPath factory store ref SHA.Nil newValue1
        else ⟨.error e, store, []⟩
      | .ok val => updateRefWithHooks repoPath factory store ref val newValue1
    else updateRefWithHooks repoPath factory store ref oldValue newValue1

/-! ## Reference walker (src/git/api/ref.go, walkReferenceParser) -/

/-- WalkInstruction from the source (Stop, Handle, Skip). -/
inductive WalkInstruction where
  | stop
  | handle
  | skip
  deriving DecidableEq, Repr

/-- WalkReferencesEntry: the per-ref field map passed to instructor and
handler (field name to value). -/
abbrev WalkReferencesEntry := List (String × String)

/-- Outcome of the walk loop: the returned error (if any), the entries the
handler was invoked on (in order), and whether the parser stream was
consumed to its end (only then the parser error is observed). -/
structure WalkOut where
  result : Except String Unit
  handled : List WalkReferencesEntry
  reachedEnd : Bool
  deriving DecidableEq, Repr

/-- The for loop of walkReferenceParser: at most maxWalkDistance iterations;
each iteration parses the next entry (nil ends the loop), asks the
instructor (an error aborts, Skip counts against the distance, Stop ends the
loop before the handler), then invokes the handler (an error aborts).
The conversion of a raw ref (mapRawRef) is outside the excerpt; entries are
modelled as already-converted field maps. -/
def walkLoop (instructor : WalkReferencesEntry → Except String WalkInstruction)
    (handler : WalkReferencesEntry → Except String Unit) :
    Nat → List WalkReferencesEntry → WalkOut
  | 0, _ => ⟨.ok (), [], false⟩
  | _ + 1, [] => ⟨.ok (), [], true⟩
  | n + 1, e :: rest =>
    match instructor e with
    | .error m => ⟨.error m, [], false⟩
    | .ok .skip => walkLoop instructor handler n rest
    | .ok .stop => ⟨.ok (), [], false⟩
    | .ok .handle =>
      match handler e with
      | .error m => ⟨.error m, [e], false⟩
      | .ok _ =>
        let out := walkLoop instructor handler n rest
        ⟨out.result, e :: out.handled, out.reachedEnd⟩

/-- Result of walkReferenceParser: error plus the handled entries. -/
structure WalkResult where
  result : Except String Unit
  handled : List WalkReferencesEntry
  deriving DecidableEq, Repr

/-- walkReferenceParser from the source: runs the loop, then surfaces the
parser error; the parser reports its error only once the stream was consumed
to the point of failure, modelled as an optional error at stream end. -/
def walkReferenceParser (entries : List WalkReferencesEntry) (parseErr : Option String)
    (instructor : WalkReferencesEntry → Except String WalkInstruction)
    (handler : WalkReferencesEntry → Except String Unit)
    (maxWalkDistance : Nat) : WalkResult :=
  let out := walkLoop instructor handler maxWalkDistance entries
  match out.result with
  | .error m => ⟨.error m, out.handled⟩
  | .ok _ =>
    if out.reachedEnd then
      match parseErr with
      | some m => ⟨.error m, out.handled⟩
      | none => ⟨.ok (), out.handled⟩
    else ⟨.ok (), out.handled⟩

/-! ## Commit builder (commit-files service, src/unnamed/part_004) -/

/-- Mode of a tree entry.  Modelled from the spec: the TreeNode type of the
api package is outside the excerpt; the commit builder distinguishes
directories, symlinks, executables and plain files. -/
inductive TreeNodeMode where
  | file
  | symlink
  | exec
  | dir
  deriving DecidableEq, Repr

/-- Modelled from the spec: a tree entry (api.TreeNode) with its mode and
object SHA; outside the excerpt. -/
structure TreeNode where
  mode : TreeNodeMode
  sha : SHA
  deriving DecidableEq, Repr

/-- TreeNode.IsDir: the entry is a directory (sub-tree). -/
def TreeNode.IsDir (e : TreeNode) : Bool :=
  e.mode = TreeNodeMode.dir

/-- TreeNode.IsLink: the entry is a symbolic link. -/
def TreeNode.IsLink (e : TreeNode) : Bool :=
  e.mode = TreeNodeMode.symlink

/-- TreeNode.IsExecutable: the entry is an executable file. -/
def TreeNode.IsExecutable (e : TreeNode) : Bool :=
  e.mode = TreeNodeMode.exec

/-- Modelled from the spec: a parent commit (api.Commit, outside the
excerpt) as its SHA plus its tree, addressed by slash-separated path. -/
structure Commit where
  sha : SHA
  tree : List (String × TreeNode)
  deriving DecidableEq, Repr

/-- Path lookup in a commit tree. -/
def lookupTree (c : Commit) (path : String) : Option TreeNode :=
  (c.tree.find? (fun p => p.1 = path)).map (fun p => p.2)

/-- Modelled from the spec: SharedRepo.GetTreeNode, resolving the tree entry
of a commit at a path; a missing path is NotFound; outside the excerpt. -/
def GetTreeNode (c : Commit) (path : String) : Except GErr TreeNode :=
  match lookupTree c path with
  | some e => .ok e
  | none => .error .notFound

/-- Modelled from the spec: the staging index of the shared repository
(path, file mode, object hash) plus the contents written to the staging
object store; the SharedRepo type is outside the excerpt. -/
structure SharedRepoState where
  index : List (String × String × String)
  objects : List (List Nat)
  deriving DecidableEq, Repr

/-- The staging state of a freshly initialized shared repository. -/
def emptySharedRepo : SharedRepoState :=
  ⟨[], []⟩

/-- Modelled from the spec: SharedRepo.WriteGitObject hashes the payload
into the staging object store and returns the content hash; modelled with an
injective content encoding; outside the excerpt. -/
def WriteGitObject (st : SharedRepoState) (payload : List Nat) : SHA × SharedRepoState :=
  (⟨payload, ""⟩, ⟨st.index, payload :: st.objects⟩)

/-- Modelled from the spec: SharedRepo.AddObjectToIndex stages a (mode,
hash) at a path, replacing any previous entry at that path; outside the
excerpt. -/
def AddObjectToIndex (st : SharedRepoState) (mode hash filePath : String) : SharedRepoState :=
  ⟨(filePath, mode, hash) :: st.index.filter (fun p => p.1 ≠ filePath), st.objects⟩

/-- Modelled from the spec: SharedRepo.RemoveFilesFromIndex unstages a path;
outside the excerpt. -/
def RemoveFilesFromIndex (st : SharedRepoState) (filePath : String) : SharedRepoState :=
  ⟨st.index.filter (fun p => p.1 ≠ filePath), st.objects⟩

/-- Modelled from the spec: SharedRepo.LsFiles lists the staged paths
matching a path; outside the excerpt. -/
def LsFiles (st : SharedRepoState) (filePath : String) : List String :=
  (st.index.filter (fun p => p.1 = filePath)).map (fun p => p.1)

/-- Modelled from the spec: api.CleanUploadFileName canonicalizes an upload
path, returning the empty string for an invalid path (empty, dot segments,
escaping the repository root); outside the excerpt. -/
def CleanUploadFileName (name : String) : String :=
  let parts := (splitPath name).filter (fun p => p ≠ "" && p ≠ ".")
  if parts.isEmpty || parts.contains ".." then ""
  else String.intercalate "/" parts

/-- FileAction from the source: a string-typed action kind. -/
abbrev FileAction := String

/-- CreateAction constant from the source. -/
def CreateAction : FileAction := "CREATE"

/-- UpdateAction constant from the source. -/
def UpdateAction : FileAction := "UPDATE"

/-- DeleteAction constant from the source. -/
def DeleteAction : FileAction := "DELETE"

/-- MoveAction constant from the source. -/
def MoveAction : FileAction := "MOVE"

/-- CommitFileAction from the source: action kind, target path, payload
bytes and the optional expected source SHA (hex text, empty when absent). -/
structure CommitFileAction where
  Action : FileAction
  Path : String
  Payload : List Nat
  sha : String
  deriving DecidableEq, Repr

/-- defaultFilePermission from the source. -/
def defaultFilePermission : String := "100644"

/-- Modelled from the spec: the octal file-mode string of a tree entry
(entry.Mode.String()); outside the excerpt. -/
def treeNodeModeStr : TreeNodeMode → String
  | .file => "100644"
  | .symlink => "120000"
  | .exec => "100755"
  | .dir => "040000"

/-- getFileEntry from the source: resolves the tree entry of the parent
commit at a path (a missing path is NotFound); if an expected source SHA was
supplied and differs from the entry hash, fails with InvalidArgument. -/
def getFileEntry (commit : Commit) (shaArg : String) (path : String) : Except GErr TreeNode :=
  match GetTreeNode commit path with
  | .error GErr.notFound => .error .notFound
  | .error e => .error e
  | .ok entry =>
    if shaArg ≠ "" ∧ shaArg ≠ entry.sha.string then .error .invalidArgument
    else .ok entry

/-- Go path.Join of the accumulated sub-path and the next segment, for the
cleaned paths the commit builder passes. -/
def joinPath (acc part : String) : String :=
  if acc = "" then part else acc ++ "/" ++ part

/-- The for loop of checkPathAvailability over the remaining path segments,
carrying the accumulated sub-path: a missing entry ends the check (the path
is free); a non-directory entry at a non-final segment is a Conflict; at the
final segment a symlink, a directory, or (for a non-empty path or a new
file) any existing entry is a Conflict. -/
def checkPathAvailLoop (commit : Commit) (filePath : String) (isNewFile : Bool) :
    List String → String → Except GErr Unit
  | [], _ => .ok ()
  | part :: rest, acc =>
    let sub := joinPath acc part
    match lookupTree commit sub with
    | none => .ok ()
    | some entry =>
      if rest.isEmpty = false then
        if entry.IsDir = false then .error .conflict
        else checkPathAvailLoop commit filePath isNewFile rest sub
      else if entry.IsLink then .error .conflict
      else if entry.IsDir then .error .conflict
      else if filePath ≠ "" ∨ isNewFile then .error .conflict
      else .ok ()

/-- checkPathAvailability from the source: walks every path segment of the
target path against the parent commit tree. -/
def checkPathAvailability (commit : Commit) (filePath : String) (isNewFile : Bool) :
    Except GErr Unit :=
  checkPathAvailLoop commit filePath isNewFile (splitPath filePath) ""

/-- createFile from the source: checks path availability against the parent
commit when one exists (an empty repository has none), writes the payload as
an object and stages it at the path. -/
def createFile (commit : Option Commit) (st : SharedRepoState)
    (filePath mode : String) (payload : List Nat) : Except GErr SharedRepoState :=
  match commit with
  | some c =>
    match checkPathAvailability c filePath true with
    | .error e => .error e
    | .ok _ =>
      let (hash, st1) := WriteGitObject st payload
      .ok (AddObjectToIndex st1 mode hash.string filePath)
  | none =>
    let (hash, st1) := WriteGitObject st payload
    .ok (AddObjectToIndex st1 mode hash.string filePath)

/-- updateFile from the source: resolves the current entry (with the
optional expected-SHA guard), keeps the executable bit, writes the new
content and re-stages it at the same path. -/
def updateFile (commit : Commit) (st : SharedRepoState)
    (filePath shaArg mode : String) (payload : List Nat) : Except GErr SharedRepoState :=
  match getFileEntry commit shaArg filePath with
  | .error e => .error e
  | .ok entry =>
    let mode1 := if entry.IsExecutable then "100755" else mode
    let (hash, st1) := WriteGitObject st payload
    .ok (AddObjectToIndex st1 mode1 hash.string filePath)

/-- parseMovePayload from the source: the payload up to the first NUL byte
is the new path (cleaned; an empty result is an invalid path), the remainder
after the NUL is the optional new content. -/
def parseMovePayload (payload : List Nat) : Except GErr (String × Option (List Nat)) :=
  let parsed :=
    match payload.findIdx? (fun b => b = 0) with
    | none => (String.mk (payload.map Char.ofNat), Option.none)
    | some i => (String.mk ((payload.take i).map Char.ofNat), some (payload.drop (i + 1)))
  let newPath := CleanUploadFileName parsed.1
  if newPath = "" then .error .invalidPath
  else .ok (newPath, parsed.2)

/-- moveFile from the source: parses the move payload, validates the source
entry (expected-SHA guard as in update), validates the destination is free,
stages the new or carried-over content at the new path and unstages the old
path. -/
def moveFile (commit : Commit) (st : SharedRepoState)
    (filePath shaArg mode : String) (payload : List Nat) : Except GErr SharedRepoState :=
  match parseMovePayload payload with
  | .error e => .error e
  | .ok (newPath, newContent) =>
    match getFileEntry commit shaArg filePath with
    | .error e => .error e
    | .ok entry =>
      match checkPathAvailability commit newPath false with
      | .error e => .error e
      | .ok _ =>
        match newContent with
        | some content =>
          let (hash, st1) := WriteGitObject st content
          let mode1 := if entry.IsExecutable then "100755" else mode
          .ok (RemoveFilesFromIndex (AddObjectToIndex st1 mode1 hash.string newPath) filePath)
        | none =>
          .ok (RemoveFilesFromIndex
            (AddObjectToIndex st (treeNodeModeStr entry.mode) entry.sha.string newPath) filePath)

/-- deleteFile from the source: a path not currently staged is NotFound,
otherwise it is removed from the index. -/
def deleteFile (st : SharedRepoState) (filePath : String) : Except GErr SharedRepoState :=
  if (LsFiles st filePath).contains filePath then .ok (RemoveFilesFromIndex st filePath)
  else .error .notFound

/-- processAction from the source: cleans the path (empty is
InvalidArgument) and dispatches on the action kind; a kind that is none of
Create, Update, Move, Delete falls through the switch with no error. -/
def processAction (commit : Commit) (st : SharedRepoState) (action : CommitFileAction) :
    Except GErr SharedRepoState :=
  let filePath := CleanUploadFileName action.Path
  if filePath = "" then .error .invalidArgument
  else if action.Action = CreateAction then
    createFile (some commit) st filePath defaultFilePermission action.Payload
  else if action.Action = UpdateAction then
    updateFile commit st filePath action.sha defaultFilePermission action.Payload
  else if action.Action = MoveAction then
    moveFile commit st filePath action.sha defaultFilePermission action.Payload
  else if action.Action = DeleteAction then
    deleteFile st filePath
  else .ok st

/-- prepareTree from the source: applies the ordered actions to the staging
state of a non-empty repository, stopping at the first error. -/
def prepareTree (commit : Commit) (st : SharedRepoState) :
    List CommitFileAction → Except GErr SharedRepoState
  | [] => .ok st
  | a :: rest =>
    match processAction commit st a with
    | .error e => .error e
    | .ok st1 => prepareTree commit st1 rest

/-- prepareTreeEmptyRepo from the source: on an empty repository every
action must be a Create (anything else is PreconditionFailed), its cleaned
path must be non-empty (else InvalidArgument), and the file is created with
no parent commit to check against. -/
def prepareTreeEmptyRepo (st : SharedRepoState) :
    List CommitFileAction → Except GErr SharedRepoState
  | [] => .ok st
  | a :: rest =>
    if a.Action ≠ CreateAction then .error .preconditionFailed
    else
      let filePath := CleanUploadFileName a.Path
      if filePath = "" then .error .invalidArgument
      else
        match createFile Option.none st filePath defaultFilePermission a.Payload with
        | .error _ => .error .internal
        | .ok st1 => prepareTreeEmptyRepo st1 rest

/-- Modelled from the spec: WriteTree writes the staged index as a
content-addressed tree object; modelled with an injective encoding of the
index; outside the excerpt. -/
def WriteTree (st : SharedRepoState) : SHA :=
  ⟨[], String.intercalate ";" (st.index.map (fun p => p.1 ++ ":" ++ p.2.1 ++ ":" ++ p.2.2))⟩

/-- Modelled from the spec: CommitTree creates a commit object for a tree
and optional parent; modelled with an injective encoding; outside the
excerpt. -/
def CommitTree (parent : Option SHA) (tree : SHA) (message : String) : SHA :=
  ⟨[], "commit:" ++ (match parent with | some p => p.string | none => "") ++ ":"
    ++ tree.string ++ ":" ++ message⟩

/-- The empty-repository branch of the CommitFiles shared-repository
pipeline (src/unnamed/part_004, lines 159-218): prepare the tree from the
actions, then write the tree object and the commit object; an error in tree
preparation aborts before any tree or commit is written. -/
def commitFilesEmptyRepo (actions : List CommitFileAction) (message : String) :
    Except GErr SHA :=
  match prepareTreeEmptyRepo emptySharedRepo actions with
  | .error e => .error e
  | .ok st => .ok (CommitTree Option.none (WriteTree st) message)

/-! ## Concrete fixtures used by witnesses and counterexamples -/

/-- A small non-executable file tree node. -/
def demoFileNode : TreeNode := ⟨TreeNodeMode.file, ⟨[7], ""⟩⟩

/-- A parent commit whose tree holds a plain file at "dir" and a plain file
at "a.txt". -/
def demoCommit : Commit :=
  ⟨⟨[5], ""⟩, [("dir", demoFileNode), ("a.txt", ⟨TreeNodeMode.file, ⟨[9], ""⟩⟩)]⟩

/-- A concrete SHA value. -/
def shaA : SHA := ⟨[1], ""⟩

/-- Another concrete SHA value. -/
def shaB : SHA := ⟨[2], ""⟩

/-- A one-ref store with refs/heads/main at shaA. -/
def demoRefStore : RefStore := [("refs/heads/main", shaA)]

/-- A hook client whose pre-receive vetoes every update. -/
def vetoHookClient : HookClient :=
  ⟨fun _ => .ok ⟨[], some "rejected"⟩, fun _ => .ok ⟨[], Option.none⟩⟩

/-- A hook client whose pre-receive passes and whose post-receive call
fails. -/
def postFailHookClient : HookClient :=
  ⟨fun _ => .ok ⟨[], Option.none⟩, fun _ => .error "connection lost"⟩

/-- Five reference entries, as a walker stream. -/
def fiveEntries : List WalkReferencesEntry :=
  [[("refname", "r1")], [("refname", "r2")], [("refname", "r3")],
    [("refname", "r4")], [("refname", "r5")]]

/-- A one-entry walker stream. -/
def oneEntry : List WalkReferencesEntry := [[("refname", "refs/heads/main")]]

/-- Action list whose first action is an invalid Create (empty path) and
whose second is a Delete. -/
def badCreateThenDelete : List CommitFileAction :=
  [⟨CreateAction, "", [], ""⟩, ⟨DeleteAction, "a", [], ""⟩]

/-! ## Theorems -/

/-- C9 (amended): SHA.Equal is reflexive, and for every hex string that
decodes successfully the constructed SHA equals the decoded raw bytes; it
equals the original hex string exactly when that string is its own canonical
lowercase form, since String() renders canonical lowercase hex. -/
theorem sha_equal_reflexive_and_cross_rep :
    (∀ s : SHA, s.Equal (.sha s) = true) ∧
    (∀ (h : String) (b : List Nat), hexDecode (trimSpace h) = some b →
      New h = .ok ⟨b, ""⟩ ∧ SHA.Equal ⟨b, ""⟩ (.raw b) = true ∧
      (hexEncode b = h → SHA.Equal ⟨b, ""⟩ (.str h) = true)) := by
  constructor
  · intro s
    simp [SHA.Equal]
  · intro h b hd
    refine ⟨by simp [New, hd], by simp [SHA.Equal], ?_⟩
    intro he
    subst he
    simp [SHA.Equal, SHA.string]

/-- Witness for C9: instantiated at the lowercase two-digit hex string
"ab". -/
theorem sha_equal_reflexive_and_cross_rep_witness :
    (SHA.Equal ⟨[171], ""⟩ (.sha ⟨[171], ""⟩) = true) ∧
    (New "ab" = .ok ⟨[171], ""⟩ ∧ SHA.Equal ⟨[171], ""⟩ (.raw [171]) = true ∧
      (hexEncode [171] = "ab" → SHA.Equal ⟨[171], ""⟩ (.str "ab") = true)) :=
  ⟨sha_equal_reflexive_and_cross_rep.1 ⟨[171], ""⟩,
    sha_equal_reflexive_and_cross_rep.2 "ab" [171] (by decide)⟩

/-- C9 counterexample: "AB" is a hex string that decodes successfully, yet
New("AB").Equal("AB") is false, because String() yields the lowercase "ab". -/
theorem sha_equal_hex_string_counterexample :
    hexDecode (trimSpace "AB") = some [171] ∧ New "AB" = .ok ⟨[171], ""⟩ ∧
    SHA.Equal ⟨[171], ""⟩ (.str "AB") = false :=
  ⟨by decide, by decide, by decide⟩

/-- C10: processAction on an action kind that is none of Create, Update,
Move, Delete, whose path cleans to a non-empty string, returns no error and
leaves the staging index unchanged. -/
theorem processAction_unknown_kind_ignored (commit : Commit) (st : SharedRepoState)
    (action : CommitFileAction)
    (h1 : action.Action ≠ CreateAction) (h2 : action.Action ≠ UpdateAction)
    (h3 : action.Action ≠ MoveAction) (h4 : action.Action ≠ DeleteAction)
    (h5 : CleanUploadFileName action.Path ≠ "") :
    processAction commit st action = .ok st := by
  simp [processAction, h1, h2, h3, h4, h5]

/-- Witness for C10: a FROBNICATE action on a valid path is ignored. -/
theorem processAction_unknown_kind_ignored_witness :
    processAction demoCommit emptySharedRepo ⟨"FROBNICATE", "x", [], ""⟩ = .ok emptySharedRepo :=
  processAction_unknown_kind_ignored demoCommit emptySharedRepo ⟨"FROBNICATE", "x", [], ""⟩
    (by decide) (by decide) (by decide) (by decide) (by decide)

/-- C7: when the tree entry at the path exists, a supplied non-empty source
SHA differing from the entry hash makes getFileEntry (and hence updateFile)
fail with InvalidArgument, while an unsupplied (empty) SHA applies no guard
and returns the entry. -/
theorem update_source_sha_guard (commit : Commit) (st : SharedRepoState)
    (filePath shaArg mode : String) (payload : List Nat) (entry : TreeNode)
    (hentry : lookupTree commit filePath = some entry) :
    (shaArg ≠ "" → shaArg ≠ entry.sha.string →
      getFileEntry commit shaArg filePath = .error .invalidArgument ∧
      updateFile commit st filePath shaArg mode payload = .error .invalidArgument) ∧
    (shaArg = "" → getFileEntry commit shaArg filePath = .ok entry) := by
  constructor
  · intro hne hmm
    have hcond : shaArg ≠ "" ∧ shaArg ≠ entry.sha.string := ⟨hne, hmm⟩
    have hg : getFileEntry commit shaArg filePath = .error .invalidArgument := by
      simp [getFileEntry, GetTreeNode, hentry, hcond]
    exact ⟨hg, by simp [updateFile, hg]⟩
  · intro he
    simp [getFileEntry, GetTreeNode, hentry, he]

/-- Witness for C7: at path "dir" of the demo commit, the mismatching SHA
"dead" is rejected with InvalidArgument and the empty SHA is not guarded. -/
theorem update_source_sha_guard_witness :
    (getFileEntry demoCommit "dead" "dir" = .error .invalidArgument ∧
      updateFile demoCommit emptySharedRepo "dir" "dead" "100644" [1] = .error .invalidArgument) ∧
    getFileEntry demoCommit "" "dir" = .ok demoFileNode :=
  ⟨(update_source_sha_guard demoCommit emptySharedRepo "dir" "dead" "100644" [1]
      demoFileNode (by decide)).1 (by decide) (by decide),
    (update_source_sha_guard demoCommit emptySharedRepo "dir" "" "100644" [1]
      demoFileNode (by decide)).2 rfl⟩

/-- The availability walk reports Conflict when segment k of the path (with
all shorter segments resolving to directories, as in any well-formed git
tree) resolves to a non-directory entry at a non-final position. -/
theorem checkPathAvailLoop_prefix_conflict (commit : Commit) (fp : String) (isNew : Bool) :
    ∀ (parts : List String) (acc : String) (k : Nat) (entry : TreeNode),
      0 < k → k < parts.length →
      lookupTree commit ((parts.take k).foldl joinPath acc) = some entry →
      entry.IsDir = false →
      (∀ j, 0 < j → j < k →
        ∃ e, lookupTree commit ((parts.take j).foldl joinPath acc) = some e ∧ e.IsDir = true) →
      checkPathAvailLoop commit fp isNew parts acc = .error .conflict := by
  intro parts
  induction parts with
  | nil =>
    intro acc k entry hk hlen
    simp at hlen
  | cons p rest ih =>
    intro acc k entry hk hlen hq hnd hwf
    match k, hk with
    | 1, _ =>
      have hrest : rest ≠ [] := by
        intro hr
        rw [hr] at hlen
        simp at hlen
      have hq1 : lookupTree commit (joinPath acc p) = some entry := by
        simpa using hq
      simp [checkPathAvailLoop, hq1, List.isEmpty_eq_false.mpr hrest, hnd]
    | (j + 2), _ =>
      have hrest : rest ≠ [] := by
        intro hr
        rw [hr] at hlen
        simp at hlen
      obtain ⟨e, he, hedir⟩ := hwf 1 (by omega) (by omega)
      have he1 : lookupTree commit (joinPath acc p) = some e := by
        simpa using he
      have hnotfalse : ¬(e.IsDir = false) := by
        simp [hedir]
      have hrec : checkPathAvailLoop commit fp isNew rest (joinPath acc p) = .error .conflict := by
        apply ih (joinPath acc p) (j + 1) entry (by omega) (by simp at hlen; omega)
        · simpa using hq
        · exact hnd
        · intro j2 hj2 hj2k
          obtain ⟨e2, he2, he2dir⟩ := hwf (j2 + 1) (by omega) (by omega)
          exact ⟨e2, by simpa using he2, he2dir⟩
      simp [checkPathAvailLoop, he1, List.isEmpty_eq_false.mpr hrest, hnotfalse, hrec]

/-- C8: a Create action whose target path has a proper prefix resolving in
the parent commit tree to a non-directory entry (the shorter prefixes being
directories, as in any well-formed git tree) fails with Conflict. -/
theorem create_prefix_conflict (commit : Commit) (st : SharedRepoState)
    (filePath mode : String) (payload : List Nat) (k : Nat) (entry : TreeNode)
    (hk : 0 < k) (hlen : k < (splitPath filePath).length)
    (hq : lookupTree commit (((splitPath filePath).take k).foldl joinPath "") = some entry)
    (hnd : entry.IsDir = false)
    (hwf : ∀ j, 0 < j → j < k →
      ∃ e, lookupTree commit (((splitPath filePath).take j).foldl joinPath "") = some e ∧
        e.IsDir = true) :
    createFile (some commit) st filePath mode payload = .error .conflict := by
  have hc := checkPathAvailLoop_prefix_conflict commit filePath true
    (splitPath filePath) "" k entry hk hlen hq hnd hwf
  simp [createFile, checkPathAvailability, hc]

/-- Witness for C8: creating "dir/file" when "dir" is a plain file in the
parent commit fails with Conflict (the particular instance of the claim). -/
theorem create_prefix_conflict_witness :
    createFile (some demoCommit) emptySharedRepo "dir/file" "100644" [1] = .error .conflict :=
  create_prefix_conflict demoCommit emptySharedRepo "dir/file" "100644" [1] 1 demoFileNode
    (by decide) (by decide) (by decide) (by decide)
    (by intro j hj1 hj2; exact absurd hj1 (by omega))

/-- On an empty repository, once every action before the first non-Create
action is a Create with a valid path, tree preparation stops at that action
with PreconditionFailed. -/
theorem prepareTreeEmptyRepo_first_non_create :
    ∀ (pre : List CommitFileAction) (st : SharedRepoState) (bad : CommitFileAction)
      (rest : List CommitFileAction),
      (∀ a ∈ pre, a.Action = CreateAction ∧ CleanUploadFileName a.Path ≠ "") →
      bad.Action ≠ CreateAction →
      prepareTreeEmptyRepo st (pre ++ bad :: rest) = .error .preconditionFailed := by
  intro pre
  induction pre with
  | nil =>
    intro st bad rest hpre hbad
    simp [prepareTreeEmptyRepo, hbad]
  | cons a pre ih =>
    intro st bad rest hpre hbad
    have ha := hpre a (List.mem_cons_self a pre)
    have hnot : ¬(a.Action ≠ CreateAction) := by
      simp [ha.1]
    simp only [List.cons_append, prepareTreeEmptyRepo, if_neg hnot, if_neg ha.2]
    simp only [createFile, WriteGitObject]
    exact ih _ bad rest (fun x hx => hpre x (List.mem_cons_of_mem a hx)) hbad

/-- C6 (amended): a CommitFiles action list on an empty repository holding a
non-Create action fails before any tree or commit is written; the error is
PreconditionFailed whenever every action preceding the first non-Create
action is a Create with a valid (non-empty after cleaning) path. -/
theorem commitFilesEmptyRepo_non_create_fails (pre : List CommitFileAction)
    (bad : CommitFileAction) (rest : List CommitFileAction) (message : String)
    (hpre : ∀ a ∈ pre, a.Action = CreateAction ∧ CleanUploadFileName a.Path ≠ "")
    (hbad : bad.Action ≠ CreateAction) :
    commitFilesEmptyRepo (pre ++ bad :: rest) message = .error .preconditionFailed := by
  have h := prepareTreeEmptyRepo_first_non_create pre emptySharedRepo bad rest hpre hbad
  simp [commitFilesEmptyRepo, h]

/-- Witness for C6: a valid Create followed by an Update on an empty
repository fails with PreconditionFailed. -/
theorem commitFilesEmptyRepo_non_create_fails_witness :
    commitFilesEmptyRepo
      ([⟨CreateAction, "a.txt", [1], ""⟩] ++ ⟨UpdateAction, "a.txt", [2], ""⟩ :: []) "title"
      = .error .preconditionFailed :=
  commitFilesEmptyRepo_non_create_fails [⟨CreateAction, "a.txt", [1], ""⟩]
    ⟨UpdateAction, "a.txt", [2], ""⟩ [] "title"
    (by intro a ha; simp at ha; subst ha; exact ⟨rfl, by decide⟩) (by decide)

/-- C6 counterexample: an action list containing a non-Create action (a
Delete) where the preceding Create has an invalid (empty) path fails with
InvalidArgument, not PreconditionFailed. -/
theorem commitFilesEmptyRepo_non_create_counterexample :
    badCreateThenDelete.any (fun a => a.Action ≠ CreateAction) = true ∧
    commitFilesEmptyRepo badCreateThenDelete "title" = .error .invalidArgument ∧
    commitFilesEmptyRepo badCreateThenDelete "title" ≠ .error .preconditionFailed :=
  ⟨by decide, by decide, by decide⟩

/-- The walk loop invokes the handler at most once per remaining distance. -/
theorem walkLoop_handled_length_le
    (instructor : WalkReferencesEntry → Except String WalkInstruction)
    (handler : WalkReferencesEntry → Except String Unit) :
    ∀ (n : Nat) (es : List WalkReferencesEntry),
      (walkLoop instructor handler n es).handled.length ≤ n := by
  intro n
  induction n with
  | zero =>
    intro es
    simp [walkLoop]
  | succ n ih =>
    intro es
    cases es with
    | nil => simp [walkLoop]
    | cons e rest =>
      rcases hi : instructor e with m | i
      · simp [walkLoop, hi]
      · cases i with
        | stop => simp [walkLoop, hi]
        | skip =>
          simp only [walkLoop, hi]
          exact Nat.le_succ_of_le (ih rest)
        | handle =>
          rcases hh : handler e with m | u
          · simp [walkLoop, hi, hh]
          · simp only [walkLoop, hi, hh, List.length_cons]
            exact Nat.succ_le_succ (ih rest)

/-- The parser wrapper returns exactly the entries handled by the loop. -/
theorem walkReferenceParser_handled (entries : List WalkReferencesEntry)
    (parseErr : Option String)
    (instructor : WalkReferencesEntry → Except String WalkInstruction)
    (handler : WalkReferencesEntry → Except String Unit) (n : Nat) :
    (walkReferenceParser entries parseErr instructor handler n).handled
      = (walkLoop instructor handler n entries).handled := by
  rcases hr : (walkLoop instructor handler n entries).result with m | u
  · simp [walkReferenceParser, hr]
  · cases hre : (walkLoop instructor handler n entries).reachedEnd
    · simp [walkReferenceParser, hr, hre]
    · cases parseErr <;> simp [walkReferenceParser, hr, hre]

/-- C5 (amended): with MaxWalkDistance 2 over a stream of 5 references the
handler is invoked at most 2 times; and an Instructor returning Stop on the
first entry results in zero handler invocations (the Stop branch breaks
before the handler runs), with the walk ending without error. -/
theorem walk_distance_cap_and_stop (entries : List WalkReferencesEntry)
    (parseErr : Option String)
    (instructor : WalkReferencesEntry → Except String WalkInstruction)
    (handler : WalkReferencesEntry → Except String Unit) :
    (entries.length = 5 →
      (walkReferenceParser entries parseErr instructor handler 2).handled.length ≤ 2) ∧
    (∀ (e : WalkReferencesEntry) (rest : List WalkReferencesEntry) (maxDist : Nat),
      entries = e :: rest → instructor e = .ok .stop →
      (walkReferenceParser entries parseErr instructor handler maxDist).handled = [] ∧
      (walkReferenceParser entries parseErr instructor handler maxDist).result = .ok ()) := by
  constructor
  · intro _
    rw [walkReferenceParser_handled]
    exact walkLoop_handled_length_le instructor handler 2 entries
  · intro e rest maxDist hes hstop
    subst hes
    cases maxDist with
    | zero => constructor <;> rfl
    | succ n =>
      have hout : walkLoop instructor handler (n + 1) (e :: rest) = ⟨.ok (), [], false⟩ := by
        simp [walkLoop, hstop]
      constructor <;> simp [walkReferenceParser, hout]

/-- Witness for C5: a concrete 5-entry stream capped at distance 2, and the
same Stop-on-first instructor on a concrete nonempty stream. -/
theorem walk_distance_cap_and_stop_witness :
    (walkReferenceParser fiveEntries Option.none (fun _ => .ok .stop)
      (fun _ => .ok ()) 2).handled.length ≤ 2 ∧
    ((walkReferenceParser fiveEntries Option.none (fun _ => .ok .stop)
      (fun _ => .ok ()) 7).handled = [] ∧
     (walkReferenceParser fiveEntries Option.none (fun _ => .ok .stop)
      (fun _ => .ok ()) 7).result = .ok ()) :=
  ⟨(walk_distance_cap_and_stop fiveEntries Option.none (fun _ => .ok .stop)
      (fun _ => .ok ())).1 (by decide),
    (walk_distance_cap_and_stop fiveEntries Option.none (fun _ => .ok .stop)
      (fun _ => .ok ())).2 [("refname", "r1")]
      [[("refname", "r2")], [("refname", "r3")], [("refname", "r4")], [("refname", "r5")]]
      7 rfl rfl⟩

/-- C5 counterexample: on a one-entry stream with an Instructor returning
Stop on the first entry, the handler is invoked zero times, not exactly
once. -/
theorem walk_stop_counterexample :
    oneEntry.length ≥ 1 ∧
    (walkReferenceParser oneEntry Option.none (fun _ => .ok .stop)
      (fun _ => .ok ()) 2).handled.length = 0 ∧
    ¬((walkReferenceParser oneEntry Option.none (fun _ => .ok .stop)
      (fun _ => .ok ()) 2).handled.length = 1) :=
  ⟨by decide, rfl, by decide⟩

/-- C3: an unset old value, an unset new value, or a Nil-to-Nil no-op makes
updateRefWithHooks return an error with no side effect: no hook call, no
store command, store unchanged. -/
theorem updateRefWithHooks_validation_no_side_effects (repoPath ref : String)
    (factory : Except String HookClient) (store : RefStore) (oldValue newValue : SHA)
    (h : oldValue.IsEmpty = true ∨ newValue.IsEmpty = true ∨
         (oldValue.IsNil = true ∧ newValue.IsNil = true)) :
    ∃ e, updateRefWithHooks repoPath factory store ref oldValue newValue
      = ⟨.error e, store, []⟩ := by
  by_cases hrp : repoPath = ""
  · exact ⟨.invalidArgument, by simp [updateRefWithHooks, hrp]⟩
  · rcases h with h1 | h2 | ⟨h3, h4⟩
    · exact ⟨.oldValueEmpty, by simp [updateRefWithHooks, hrp, h1]⟩
    · by_cases h1 : oldValue.IsEmpty = true
      · exact ⟨.oldValueEmpty, by simp [updateRefWithHooks, hrp, h1]⟩
      · exact ⟨.newValueEmpty, by simp [updateRefWithHooks, hrp, h1, h2]⟩
    · by_cases h1 : oldValue.IsEmpty = true
      · exact ⟨.oldValueEmpty, by simp [updateRefWithHooks, hrp, h1]⟩
      · by_cases h2 : newValue.IsEmpty = true
        · exact ⟨.newValueEmpty, by simp [updateRefWithHooks, hrp, h1, h2]⟩
        · exact ⟨.bothValuesNil, by simp [updateRefWithHooks, hrp, h1, h2, h3, h4]⟩

/-- Witness for C3: an unset old value is rejected with no side effect. -/
theorem updateRefWithHooks_validation_witness :
    ∃ e, updateRefWithHooks "repo" (.ok vetoHookClient) demoRefStore "refs/heads/main"
      SHA.None shaB = ⟨.error e, demoRefStore, []⟩ :=
  updateRefWithHooks_validation_no_side_effects "repo" "refs/heads/main" (.ok vetoHookClient)
    demoRefStore SHA.None shaB (Or.inl (by decide))

/-- C1: a failing or vetoing pre-receive call makes updateRefWithHooks
return an error with the store untouched: the update-ref command is never
invoked and GetRef still returns the original value. -/
theorem updateRefWithHooks_pre_receive_blocks (repoPath ref : String) (hooks : HookClient)
    (store : RefStore) (oldValue newValue : SHA)
    (hpre : (∃ m, hooks.preReceive ⟨ref, oldValue, newValue⟩ = .error m) ∨
            (∃ out e, hooks.preReceive ⟨ref, oldValue, newValue⟩ = .ok out ∧
              out.Error = some e)) :
    (∃ e, (updateRefWithHooks repoPath (.ok hooks) store ref oldValue newValue).result
      = .error e) ∧
    (updateRefWithHooks repoPath (.ok hooks) store ref oldValue newValue).store = store ∧
    (∀ (r : String) (o n : SHA), GitEvent.updateRefCmd r o n ∉
      (updateRefWithHooks repoPath (.ok hooks) store ref oldValue newValue).events) ∧
    GetRef repoPath (updateRefWithHooks repoPath (.ok hooks) store ref oldValue newValue).store
      ref = GetRef repoPath store ref := by
  have key : ∃ (x : GErr) (evs : List GitEvent),
      updateRefWithHooks repoPath (.ok hooks) store ref oldValue newValue
        = ⟨.error x, store, evs⟩ ∧
      (∀ (r : String) (o n : SHA), GitEvent.updateRefCmd r o n ∉ evs) := by
    by_cases hrp : repoPath = ""
    · exact ⟨.invalidArgument, [], by simp [updateRefWithHooks, hrp], by intro r o n; simp⟩
    · by_cases ho : oldValue.IsEmpty = true
      · exact ⟨.oldValueEmpty, [], by simp [updateRefWithHooks, hrp, ho], by intro r o n; simp⟩
      · by_cases hn : newValue.IsEmpty = true
        · exact ⟨.newValueEmpty, [], by simp [updateRefWithHooks, hrp, ho, hn],
            by intro r o n; simp⟩
        · by_cases hb : (oldValue.IsNil && newValue.IsNil) = true
          · exact ⟨.bothValuesNil, [], by simp [updateRefWithHooks, hrp, ho, hn, hb],
              by intro r o n; simp⟩
          · rcases hpre with ⟨m, hm⟩ | ⟨out, e, hout, herr⟩
            · exact ⟨.preReceiveCallFailed, [.preReceiveCall ⟨ref, oldValue, newValue⟩],
                by simp [updateRefWithHooks, hrp, ho, hn, hb, hm], by intro r o n; simp⟩
            · exact ⟨.preReceiveHookError, [.preReceiveCall ⟨ref, oldValue, newValue⟩],
                by simp [updateRefWithHooks, hrp, ho, hn, hb, hout, herr],
                by intro r o n; simp⟩
  obtain ⟨x, evs, heq, hna⟩ := key
  refine ⟨⟨x, by rw [heq]⟩, by rw [heq], ?_, by rw [heq]⟩
  intro r o n
  rw [heq]
  exact hna r o n

/-- Witness for C1: a vetoing pre-receive hook on the demo store. -/
theorem updateRefWithHooks_pre_receive_blocks_witness :
    (∃ e, (updateRefWithHooks "repo" (.ok vetoHookClient) demoRefStore "refs/heads/main"
      shaA shaB).result = .error e) ∧
    (updateRefWithHooks "repo" (.ok vetoHookClient) demoRefStore "refs/heads/main"
      shaA shaB).store = demoRefStore ∧
    (∀ (r : String) (o n : SHA), GitEvent.updateRefCmd r o n ∉
      (updateRefWithHooks "repo" (.ok vetoHookClient) demoRefStore "refs/heads/main"
        shaA shaB).events) ∧
    GetRef "repo" (updateRefWithHooks "repo" (.ok vetoHookClient) demoRefStore
      "refs/heads/main" shaA shaB).store "refs/heads/main"
      = GetRef "repo" demoRefStore "refs/heads/main" :=
  updateRefWithHooks_pre_receive_blocks "repo" "refs/heads/main" vetoHookClient demoRefStore
    shaA shaB (Or.inr ⟨⟨[], some "rejected"⟩, "rejected", rfl, rfl⟩)

/-- A ref just set by the CAS command reads back as the new value. -/
theorem lookupRef_setRef (store : RefStore) (ref : String) (v : SHA) :
    lookupRef (setRef store ref v) ref = some v := by
  simp [lookupRef, setRef, List.find?]

/-- A ref just removed by the CAS command reads back as absent. -/
theorem lookupRef_removeRef (store : RefStore) (ref : String) :
    lookupRef (removeRef store ref) ref = Option.none := by
  unfold lookupRef removeRef
  rw [List.find?_eq_none.mpr]
  · rfl
  · intro x hx
    have hmem := List.of_mem_filter hx
    simp at hmem ⊢
    exact hmem

/-- A successful update-ref CAS leaves the ref at the new value (deleted for
a delete command). -/
theorem runUpdateRefCmd_ok_lookup (store : RefStore) (ref : String)
    (newValue oldValue : SHA) (store2 : RefStore) :
    (runUpdateRefCmd store ref true newValue oldValue = .ok store2 →
      lookupRef store2 ref = Option.none) ∧
    (runUpdateRefCmd store ref false newValue oldValue = .ok store2 →
      lookupRef store2 ref = some newValue) := by
  constructor
  · intro h
    unfold runUpdateRefCmd at h
    rw [if_pos rfl] at h
    split at h
    · split at h
      · cases h
        exact lookupRef_removeRef store ref
      · cases h
    · cases h
  · intro h
    unfold runUpdateRefCmd at h
    rw [if_neg (by simp)] at h
    split at h
    · split at h
      · cases h
      · cases h
        exact lookupRef_setRef store ref newValue
    · split at h
      · split at h
        · cases h
          exact lookupRef_setRef store ref newValue
        · cases h
      · cases h

/-- C4: when validation passes, pre-receive succeeds without veto, the CAS
update succeeds, and the post-receive call then fails or reports an error,
updateRefWithHooks reports an error while the store keeps the CAS result:
the ref reads back as the new value (absent for a deletion). -/
theorem post_receive_failure_reported_not_rolled_back (repoPath ref : String)
    (hooks : HookClient) (store store2 : RefStore) (oldValue newValue : SHA)
    (hrp : repoPath ≠ "")
    (ho : oldValue.IsEmpty = false) (hn : newValue.IsEmpty = false)
    (hb : (oldValue.IsNil && newValue.IsNil) = false)
    (hpre : ∃ out, hooks.preReceive ⟨ref, oldValue, newValue⟩ = .ok out ∧
      out.Error = Option.none)
    (hcas : runUpdateRefCmd store ref newValue.IsNil newValue oldValue = .ok store2)
    (hpost : (∃ m, hooks.postReceive ⟨ref, oldValue, newValue⟩ = .error m) ∨
             (∃ out2 e2, hooks.postReceive ⟨ref, oldValue, newValue⟩ = .ok out2 ∧
               out2.Error = some e2)) :
    (∃ e, (updateRefWithHooks repoPath (.ok hooks) store ref oldValue newValue).result
      = .error e) ∧
    (updateRefWithHooks repoPath (.ok hooks) store ref oldValue newValue).store = store2 ∧
    (newValue.IsNil = true → lookupRef store2 ref = Option.none) ∧
    (newValue.IsNil = false → lookupRef store2 ref = some newValue) := by
  have hlookup := runUpdateRefCmd_ok_lookup store ref newValue oldValue store2
  have hnil : (newValue.IsNil = true → lookupRef store2 ref = Option.none) ∧
      (newValue.IsNil = false → lookupRef store2 ref = some newValue) := by
    constructor
    · intro hd
      rw [hd] at hcas
      exact hlookup.1 hcas
    · intro hd
      rw [hd] at hcas
      exact hlookup.2 hcas
  obtain ⟨out, hout, houte⟩ := hpre
  have hob : ¬(oldValue.IsEmpty = true) := by simp [ho]
  have hnb : ¬(newValue.IsEmpty = true) := by simp [hn]
  have hbb : ¬((oldValue.IsNil && newValue.IsNil) = true) := by simp [hb]
  rcases hpost with ⟨m, hm⟩ | ⟨out2, e2, hout2, hout2e⟩
  · have heq : updateRefWithHooks repoPath (.ok hooks) store ref oldValue newValue
        = ⟨.error .postReceiveCallFailed, store2,
            [.preReceiveCall ⟨ref, oldValue, newValue⟩, .updateRefCmd ref oldValue newValue,
              .postReceiveCall ⟨ref, oldValue, newValue⟩]⟩ := by
      simp [updateRefWithHooks, hrp, hob, hnb, hbb, hout, houte, hcas, hm]
    exact ⟨⟨.postReceiveCallFailed, by rw [heq]⟩, by rw [heq], hnil.1, hnil.2⟩
  · have heq : updateRefWithHooks repoPath (.ok hooks) store ref oldValue newValue
        = ⟨.error .postReceiveHookError, store2,
            [.preReceiveCall ⟨ref, oldValue, newValue⟩, .updateRefCmd ref oldValue newValue,
              .postReceiveCall ⟨ref, oldValue, newValue⟩]⟩ := by
      simp [updateRefWithHooks, hrp, hob, hnb, hbb, hout, houte, hcas, hout2, hout2e]
    exact ⟨⟨.postReceiveHookError, by rw [heq]⟩, by rw [heq], hnil.1, hnil.2⟩

/-- Witness for C4: a failing post-receive call after a successful CAS from
shaA to shaB leaves the ref at shaB while reporting an error. -/
theorem post_receive_failure_witness :
    (∃ e, (updateRefWithHooks "repo" (.ok postFailHookClient) demoRefStore "refs/heads/main"
      shaA shaB).result = .error e) ∧
    (updateRefWithHooks "repo" (.ok postFailHookClient) demoRefStore "refs/heads/main"
      shaA shaB).store = setRef demoRefStore "refs/heads/main" shaB ∧
    (shaB.IsNil = true →
      lookupRef (setRef demoRefStore "refs/heads/main" shaB) "refs/heads/main" = Option.none) ∧
    (shaB.IsNil = false →
      lookupRef (setRef demoRefStore "refs/heads/main" shaB) "refs/heads/main" = some shaB) :=
  post_receive_failure_reported_not_rolled_back "repo" "refs/heads/main" postFailHookClient
    demoRefStore (setRef demoRefStore "refs/heads/main" shaB) shaA shaB
    (by decide) (by decide) (by decide) (by decide)
    ⟨⟨[], Option.none⟩, rfl, rfl⟩ (by decide)
    (Or.inl ⟨"connection lost", rfl⟩)

/-- C2: UpdateRef normalizes an empty new value to Nil; with an explicit old
value it delegates directly; with an unset old value it resolves via GetRef,
failing NotFound when the ref is absent and deletion is intended, otherwise
normalizing absence to Nil (create intent) or using the resolved value, and
delegates to updateRefWithHooks. -/
theorem updateRef_normalization (repoPath ref : String)
    (factory : Except String HookClient) (store : RefStore) (oldValue newValue : SHA)
    (hrp : repoPath ≠ "") :
    (oldValue.IsEmpty = false →
      UpdateRef repoPath factory store ref oldValue newValue
        = updateRefWithHooks repoPath factory store ref oldValue
            (if newValue.IsEmpty then SHA.Nil else newValue)) ∧
    (oldValue.IsEmpty = true → GetRef repoPath store ref = .error .notFound →
      ((if newValue.IsEmpty then SHA.Nil else newValue).IsNil = true →
        UpdateRef repoPath factory store ref oldValue newValue
          = ⟨.error .notFound, store, []⟩) ∧
      ((if newValue.IsEmpty then SHA.Nil else newValue).IsNil = false →
        UpdateRef repoPath factory store ref oldValue newValue
          = updateRefWithHooks repoPath factory store ref SHA.Nil
              (if newValue.IsEmpty then SHA.Nil else newValue))) ∧
    (oldValue.IsEmpty = true → ∀ v, GetRef repoPath store ref = .ok v →
      UpdateRef repoPath factory store ref oldValue newValue
        = updateRefWithHooks repoPath factory store ref v
            (if newValue.IsEmpty then SHA.Nil else newValue)) := by
  refine ⟨?_, ?_, ?_⟩
  · intro ho
    simp [UpdateRef, hrp, ho]
  · intro ho hg
    constructor
    · intro hnil
      simp [UpdateRef, hrp, ho, hg, hnil]
    · intro hnil
      simp [UpdateRef, hrp, ho, hg, hnil]
  · intro ho v hg
    simp [UpdateRef, hrp, ho, hg]

/-- Witness for C2: with an unset old value and the ref present at shaA,
UpdateRef delegates with the resolved value shaA. -/
theorem updateRef_normalization_witness :
    UpdateRef "repo" (.ok vetoHookClient) demoRefStore "refs/heads/main" SHA.None shaB
      = updateRefWithHooks "repo" (.ok vetoHookClient) demoRefStore "refs/heads/main" shaA
          (if shaB.IsEmpty then SHA.Nil else shaB) :=
  (updateRef_normalization "repo" "refs/heads/main" (.ok vetoHookClient) demoRefStore
    SHA.None shaB (by decide)).2.2 (by decide) shaA (by decide)
